import Mathlib

/-!
Verification of the request-admission pipeline of the x402-template service.

The development shallowly embeds the stateful primitives and the pipeline
orchestration of the service:

* the fixed-window rate limiter (`src/middleware/rateLimit.ts`,
  class `FixedWindowLimiter` and `createRateLimitController`);
* the idempotency ledger (`src/lib/idempotencyStore.ts`, a thin wrapper
  around an LRU cache with TTL);
* configuration loading (`src/config.ts`);
* the payment gate (`src/middleware/requirePayment.ts`) and the ordered
  request pipeline assembled in `src/app.ts` / `src/routes/index.ts`.

JavaScript `Map`s are embedded as association lists (insertion order
preserved, `set` on an existing key updates in place, on a new key appends),
timestamps as natural numbers of milliseconds, and thrown exceptions as
`Except`.  External collaborators (the x402 facilitator middleware and the
payment-signature decoder) are universally quantified oracle parameters.
-/

namespace X402

/-! ### Fixed-window rate limiter (src/middleware/rateLimit.ts)

```ts
consume(key: string, maxPerMinute: number): boolean {
  const now = Date.now();
  const windowStart = Math.floor(now / 60_000) * 60_000;
  const existing = this.counters.get(key);
  if (!existing || existing.windowStart !== windowStart) {
    this.counters.set(key, { windowStart, count: 1 });
    return true;
  }
  if (existing.count >= maxPerMinute) { return false; }
  existing.count += 1;
  this.counters.set(key, existing);
  return true;
}
```
`Date.now()` is made an explicit argument `now`. -/
structure CounterValue where
  windowStart : Nat
  count : Nat
deriving DecidableEq, Repr

/-- The `counters` map of one `FixedWindowLimiter`, as an association list in
insertion order (the embedding of a JavaScript `Map<string, CounterValue>`). -/
abbrev LimiterState := List (String × CounterValue)

/-- `Math.floor(now / 60_000) * 60_000` on a millisecond timestamp. -/
def windowOf (now : Nat) : Nat :=
  now / 60000 * 60000

/-- `Map.get`: the value stored at `k`, if any. -/
def lookupKey : LimiterState → String → Option CounterValue
  | [], _ => none
  | (k2, v) :: rest, k => if k2 = k then some v else lookupKey rest k

/-- `Map.set`: update the entry for `k` in place if present, else append. -/
def mapSet : LimiterState → String → CounterValue → LimiterState
  | [], k, v => [(k, v)]
  | (k2, v2) :: rest, k, v =>
    if k2 = k then (k2, v) :: rest else (k2, v2) :: mapSet rest k v

/-- `FixedWindowLimiter.consume`, returning the updated map and the verdict. -/
def consume (st : LimiterState) (key : String) (maxPerMinute : Nat) (now : Nat) :
    LimiterState × Bool :=
  let windowStart := windowOf now
  match lookupKey st key with
  | none => (mapSet st key ⟨windowStart, 1⟩, true)
  | some existing =>
    if existing.windowStart ≠ windowStart then
      (mapSet st key ⟨windowStart, 1⟩, true)
    else if maxPerMinute ≤ existing.count then
      (st, false)
    else
      (mapSet st key ⟨existing.windowStart, existing.count + 1⟩, true)

/-! ### Sequences of consume calls (for claim C3) -/
/-- One `consume` invocation: the key, the bound passed as `maxPerMinute`, and
the value of `Date.now()` at the time of the call. -/
structure LimCall where
  key : String
  limit : Nat
  now : Nat
deriving DecidableEq, Repr

/-- Run a list of consume calls left to right, collecting the verdicts. -/
def runCalls : LimiterState → List LimCall → LimiterState × List Bool
  | st, [] => (st, [])
  | st, c :: cs =>
    let r := consume st c.key c.limit c.now
    let rest := runCalls r.1 cs
    (rest.1, r.2 :: rest.2)

/-- Number of calls for key `k` in a call sequence. -/
def countK (k : String) (cs : List LimCall) : Nat :=
  (cs.filter (fun c => c.key = k)).length

/-- The stored counter of `k`, if any, does not belong to window `W`:
window `W` is still fresh for `k`. -/
def freshFor (st : LimiterState) (k : String) (W : Nat) : Prop :=
  ∀ cv, lookupKey st k = some cv → cv.windowStart ≠ W

/-- Invariant tying the number `j` of consume calls already made for `k`
inside window `W` (all with bound `L`) to the stored counter. -/
def kInvariant (k : String) (W L : Nat) (st : LimiterState) (j : Nat) : Prop :=
  if j = 0 then freshFor st k W else lookupKey st k = some ⟨W, min j L⟩

/-! ### Idempotency ledger (src/lib/idempotencyStore.ts)

```ts
export class IdempotencyStore {
  private readonly cache: LRUCache<string, IdempotencyEntry>;
  constructor(ttlMs = 10 * 60 * 1000, max = 10_000) {
    this.cache = new LRUCache<string, IdempotencyEntry>({ ttl: ttlMs, max });
  }
  has(key: string): boolean { return this.cache.has(key); }
  markSeen(key: string): void {
    this.cache.set(key, { key, createdAt: Date.now() });
  }
}
```

Modelled from the spec: the `lru-cache` library backing the store is an
external dependency whose source is not part of the repository.  Following
the spec ("the ledger holds at most N records (default 10,000) and evicts
the least-recently-used entry when full; each record additionally expires
after a fixed TTL (default 10 minutes) regardless of access"), it is
embedded as a list of entries ordered from most recently set to least
recently set; `set` moves or inserts the key at the front and drops entries
beyond capacity from the back, and `has` reports a key whose record has not
outlived the TTL.  Only `set` refreshes recency, matching the store's use of
the library (`has` is not configured to update recency). -/
structure IdemEntry where
  key : String
  createdAt : Nat
deriving DecidableEq, Repr

structure IdemStore where
  ttlMs : Nat
  maxEntries : Nat
  entries : List IdemEntry
deriving DecidableEq, Repr

/-- Default TTL from the `IdempotencyStore` constructor: `10 * 60 * 1000`. -/
def defaultTtlMs : Nat := 10 * 60 * 1000

/-- Default capacity from the `IdempotencyStore` constructor: `10_000`. -/
def defaultMaxEntries : Nat := 10000

/-- The store as built in `buildApp` (`new IdempotencyStore()`). -/
def emptyStore : IdemStore := ⟨defaultTtlMs, defaultMaxEntries, []⟩

/-- `IdempotencyStore.has`: a committed record exists and has not expired. -/
def storeHas (st : IdemStore) (key : String) (now : Nat) : Bool :=
  match st.entries.find? (fun e => e.key = key) with
  | none => false
  | some e => now - e.createdAt ≤ st.ttlMs

/-- `IdempotencyStore.markSeen`: insert or refresh the record for `key` at
the current time, evicting from the least-recently-set end beyond capacity. -/
def markSeen (st : IdemStore) (key : String) (now : Nat) : IdemStore :=
  let pruned := st.entries.filter (fun e => ¬ e.key = key)
  let inserted : List IdemEntry := ⟨key, now⟩ :: pruned
  ⟨st.ttlMs, st.maxEntries, inserted.take st.maxEntries⟩

/-! ### Configuration loading (src/config.ts)

Price strings are processed character-wise; the JavaScript regular
expressions and string methods are embedded as recursive functions on
`List Char`.  `normalizeUsdcPrice` checks `/^\d+(\.\d+)?$/`, strips leading
zeros (`/^0+(?=\d)/`), and rejects non-positive values; `usdcToBaseUnits`
splits at the decimal point, pads or truncates the fraction to six digits,
concatenates, and strips leading zeros again. -/
/-- The digits before the first `'.'` (the whole part, `split(".")[0]`). -/
def beforeDot : List Char → List Char
  | [] => []
  | c :: rest => if c = '.' then [] else c :: beforeDot rest

/-- The characters after the first `'.'` (`split(".")[1]` for strings with at
most one dot), or `none` when there is no dot. -/
def afterDot : List Char → Option (List Char)
  | [] => none
  | c :: rest => if c = '.' then some rest else afterDot rest

/-- The test `/^\d+(\.\d+)?$/.test(value)`: a non-empty run of digits,
optionally followed by a dot and another non-empty run of digits. -/
def priceShape (l : List Char) : Bool :=
  (!(beforeDot l).isEmpty) && (beforeDot l).all Char.isDigit &&
    (match afterDot l with
     | none => true
     | some f => (!f.isEmpty) && f.all Char.isDigit)

/-- Whether the first character of a list is a decimal digit. -/
def firstIsDigit : List Char → Bool
  | [] => false
  | c :: _ => c.isDigit

/-- `value.replace(/^0+(?=\d)/, "")`: drop leading zeros as long as a digit
still follows the dropped run. -/
def stripZeros : List Char → List Char
  | [] => []
  | c :: tl => if c = '0' && firstIsDigit tl then stripZeros tl else c :: tl

/-- Numeric value of a digit string (most significant digit first). -/
def digitsVal (l : List Char) : Nat :=
  l.foldl (fun acc c => acc * 10 + (c.toNat - 48)) 0

/-- `Number(trimmed) > 0` for a string matching `/^\d+(\.\d+)?$/`: some digit
is non-zero.  (The JavaScript check `Number(trimmed) <= 0` converts through
a float; a positive value implies a non-zero digit, so the acceptance set
embedded here is a superset of the code's and every accepted input of the
code is covered.) -/
def hasNonzeroDigit (l : List Char) : Bool :=
  l.any (fun c => c.isDigit && !(c = '0'))

/-- `value.replace(/^0+(?=\d)/, "") || "0"` (the `trimmed` value of
`normalizeUsdcPrice`). -/
def trimmedPrice (value : String) : String :=
  if (stripZeros value.data).isEmpty then "0" else String.mk (stripZeros value.data)

/-- `normalizeUsdcPrice` of src/config.ts; a thrown `Error` becomes
`Except.error` of its message. -/
def normalizeUsdcPrice (value : String) : Except String String :=
  if !priceShape value.data then
    Except.error ("Invalid PRICE_USDC value: " ++ value)
  else
    if !hasNonzeroDigit (trimmedPrice value).data then
      Except.error "PRICE_USDC must be > 0"
    else Except.ok (trimmedPrice value)

/-- The `normalized` digit list of `usdcToBaseUnits`:
`` `${whole}${fraction}`.replace(/^0+(?=\d)/, "") `` where `whole` is
`wholeRaw || "0"` and `fraction` is `` `${fractionRaw}000000`.slice(0, 6) ``. -/
def rawUnits (l : List Char) : List Char :=
  stripZeros ((if (beforeDot l).isEmpty then ['0'] else beforeDot l) ++
    ((afterDot l).getD [] ++ List.replicate 6 '0').take 6)

/-- `normalized || "0"`. -/
def finalUnits (l : List Char) : List Char :=
  if (rawUnits l).isEmpty then ['0'] else rawUnits l

/-- `usdcToBaseUnits` of src/config.ts (`USDC_DECIMALS = 6`). -/
def usdcToBaseUnits (value : String) : String :=
  String.mk (finalUnits value.data)

/-- The mathematical target of claim C10: the decimal value of a price
string, multiplied by `10^6`, with fractional digits beyond the sixth
truncated. -/
def scaledValue (l : List Char) : Nat :=
  digitsVal (beforeDot l) * 1000000 +
    digitsVal (((afterDot l).getD [] ++ List.replicate 6 '0').take 6)

/-- An environment: `process.env` restricted to string lookups. -/
def EnvLike : Type := String → Option String

/-- `raw.toLowerCase()`, for the ASCII values the configuration compares. -/
def lowerAscii (s : String) : String :=
  String.mk (s.data.map Char.toLower)

/-- `parseBoolEnv`: absent or empty is the fallback, otherwise compare the
lowercased value with `"true"`. -/
def parseBoolEnv (env : EnvLike) (key : String) (fallback : Bool) : Bool :=
  match env key with
  | none => fallback
  | some raw => if raw = "" then fallback else lowerAscii raw = "true"

/-- Leading-digit prefix of a string, as JavaScript `parseInt(raw, 10)` reads
it: `none` when the first character is not a decimal digit. -/
def parseIntDigits (l : List Char) : Option Nat :=
  match l with
  | c :: _ => if c.isDigit then some (digitsVal (l.takeWhile Char.isDigit)) else none
  | [] => none

/-- `Number.parseInt(raw, 10)`: optional whitespace, optional sign, then a
digit prefix; `none` models `NaN`.  (Float precision loss on huge literals
is not modelled; no claim depends on it.) -/
def parseIntJs (s : String) : Option Int :=
  let l := s.data.dropWhile (fun c => c = ' ' || c = '\t' || c = '\n' || c = '\r')
  match l with
  | '-' :: rest => (parseIntDigits rest).map (fun n => -(n : Int))
  | '+' :: rest => (parseIntDigits rest).map (fun n => (n : Int))
  | _ => (parseIntDigits l).map (fun n => (n : Int))

/-- `parseIntEnv`: absent or empty returns the fallback; `NaN` or a
non-positive parse throws. -/
def parseIntEnv (env : EnvLike) (key : String) (fallback : Nat) :
    Except String Nat :=
  match env key with
  | none => Except.ok fallback
  | some raw =>
    if raw = "" then Except.ok fallback
    else
      match parseIntJs raw with
      | none => Except.error ("Invalid positive integer for " ++ key ++ ": " ++ raw)
      | some i =>
        if i ≤ 0 then Except.error ("Invalid positive integer for " ++ key ++ ": " ++ raw)
        else Except.ok i.toNat

/-- `requireEnv`: absent or empty (falsy) throws. -/
def requireEnv (env : EnvLike) (key : String) : Except String String :=
  match env key with
  | none => Except.error ("Missing required env var: " ++ key)
  | some v => if v = "" then Except.error ("Missing required env var: " ++ key) else Except.ok v

/-- `/^0x[a-fA-F0-9]{40}$/` resp. `{64}` bodies. -/
def isHexBody (l : List Char) (n : Nat) : Bool :=
  l.length = n && l.all (fun c => c.isDigit || ('a' ≤ c && c ≤ 'f') || ('A' ≤ c && c ≤ 'F'))

/-- `parseHexAddress` of src/config.ts. -/
def parseHexAddress (value : String) (key : String) : Except String String :=
  match value.data with
  | '0' :: 'x' :: rest =>
    if isHexBody rest 40 then Except.ok value
    else Except.error ("Invalid address for " ++ key ++ ": " ++ value)
  | _ => Except.error ("Invalid address for " ++ key ++ ": " ++ value)

/-- `parsePrivateKey` of src/config.ts. -/
def parsePrivateKey (value : String) (key : String) : Except String String :=
  match value.data with
  | '0' :: 'x' :: rest =>
    if isHexBody rest 64 then Except.ok value
    else Except.error ("Invalid private key for " ++ key)
  | _ => Except.error ("Invalid private key for " ++ key)

/-- `AppConfig` of src/config.ts. -/
structure AppConfig where
  nodeEnv : String
  port : Nat
  logLevel : String
  serviceName : String
  version : String
  chainId : Nat
  baseRpcUrl : String
  sellerPrivateKey : String
  usdcContract : String
  receiverAddress : String
  priceUsdc : String
  priceBaseUnits : String
  publicBaseUrl : String
  rateLimitPerMin : Nat
  rateLimitUnpaidPerMin : Nat
  bodyLimitBytes : Nat
  requestTimeoutMs : Nat
  upstreamTimeoutMs : Nat
  upstreamHealthUrl : Option String
  x402DevBypass : Bool
  metricsEnabled : Bool
  metricsSecret : Option String

/-- `loadConfig` of src/config.ts (`REQUIRED_CHAIN_ID = 8453`); each thrown
`Error` becomes `Except.error`, evaluated in source order. -/
def loadConfig (env : EnvLike) : Except String AppConfig := do
  let chainId ← parseIntEnv env "CHAIN_ID" 8453
  if chainId ≠ 8453 then
    throw ("CHAIN_ID must be 8453, received: " ++ toString chainId)
  let nodeEnv := (env "NODE_ENV").getD "development"
  let x402DevBypass := parseBoolEnv env "X402_DEV_BYPASS" false
  if nodeEnv = "production" ∧ x402DevBypass then
    throw "X402_DEV_BYPASS cannot be enabled in production"
  let priceRaw ← requireEnv env "PRICE_USDC"
  let priceUsdc ← normalizeUsdcPrice priceRaw
  let port ← parseIntEnv env "PORT" 3000
  let serviceName ← requireEnv env "SERVICE_NAME"
  let baseRpcUrl ← requireEnv env "BASE_RPC_URL"
  let sellerRaw ← requireEnv env "SELLER_PRIVATE_KEY"
  let sellerPrivateKey ← parsePrivateKey sellerRaw "SELLER_PRIVATE_KEY"
  let usdcRaw ← requireEnv env "USDC_CONTRACT"
  let usdcContract ← parseHexAddress usdcRaw "USDC_CONTRACT"
  let receiverRaw ← requireEnv env "RECEIVER_ADDRESS"
  let receiverAddress ← parseHexAddress receiverRaw "RECEIVER_ADDRESS"
  let publicBaseUrl ← requireEnv env "PUBLIC_BASE_URL"
  let rateLimitPerMin ← parseIntEnv env "RATE_LIMIT_PER_MIN" 100
  let rateLimitUnpaidPerMin ← parseIntEnv env "RATE_LIMIT_UNPAID_PER_MIN" 20
  let bodyLimitKb ← parseIntEnv env "BODY_LIMIT_KB" 10
  let requestTimeoutMs ← parseIntEnv env "REQUEST_TIMEOUT_MS" 10000
  let upstreamTimeoutMs ← parseIntEnv env "UPSTREAM_TIMEOUT_MS" 3000
  return {
    nodeEnv := nodeEnv
    port := port
    logLevel := (env "LOG_LEVEL").getD "info"
    serviceName := serviceName
    version := (env "npm_package_version").getD "1.0.0"
    chainId := chainId
    baseRpcUrl := baseRpcUrl
    sellerPrivateKey := sellerPrivateKey
    usdcContract := usdcContract
    receiverAddress := receiverAddress
    priceUsdc := priceUsdc
    priceBaseUnits := usdcToBaseUnits priceUsdc
    publicBaseUrl := publicBaseUrl
    rateLimitPerMin := rateLimitPerMin
    rateLimitUnpaidPerMin := rateLimitUnpaidPerMin
    bodyLimitBytes := bodyLimitKb * 1024
    requestTimeoutMs := requestTimeoutMs
    upstreamTimeoutMs := upstreamTimeoutMs
    upstreamHealthUrl := env "UPSTREAM_HEALTH_URL"
    x402DevBypass := x402DevBypass
    metricsEnabled := parseBoolEnv env "METRICS_ENABLED" false
    metricsSecret := env "METRICS_SECRET" }

/-! ### The request pipeline

Embeds `buildApp` (src/app.ts) together with the pieces it wires:
`createRequirePaymentMiddleware` (src/middleware/requirePayment.ts), the
unpaid-attempt middleware and `recordUnpaidAttempt`
(src/middleware/rateLimit.ts), `createIdempotencyPreHandler`
(src/middleware/idempotency.ts), the request-context hooks
(src/middleware/requestContext.ts), the route registration
(src/routes/index.ts) and the echo route (src/routes/v1/echo.ts).

The fastify request lifecycle is framework code, not part of the repository;
the stage order is modelled from the spec, whose control flow fixes it:
request context at entry → global rate limiter → unpaid-attempt rate limiter
(monetized prefix) → payment admission gate → idempotency pre-check →
handler → finalization on response.  The `middie` middlewares (unpaid
limiter and payment gate) run in the onRequest phase, before route schema
validation, and validation runs before the preHandler hooks; a failed header
schema surfaces as `FST_ERR_VALIDATION`, which the error handler of
`buildApp` maps to a 400 response with code `INTERNAL_ERROR` and message
"Invalid request payload".

The only monetized route is `POST /v1/echo`, whose header schema requires a
non-empty `idempotency-key`.  The external x402 facilitator middleware and
the payment-signature decoder are oracle parameters; the facilitator holds
no reference to the limiters or the ledger, so it is a function of the
request alone.  Both limiter keys (fastify `request.ip` and the raw-socket
`getIp`) are modelled by the single field `ip`, and the several `Date.now()`
readings during one request by the single field `now`. -/
/-- The error codes of src/lib/errors.ts. -/
inductive ErrCode
  | PAYMENT_REQUIRED
  | PAYMENT_INVALID
  | RATE_LIMITED
  | IDEMPOTENCY_REQUIRED
  | IDEMPOTENCY_REPLAY
  | NOT_READY
  | UPSTREAM_TIMEOUT
  | INTERNAL_ERROR
deriving DecidableEq, Repr

/-- `"x402" | "dev_bypass" | false`. -/
inductive PaidMode
  | x402
  | devBypass
  | unset
deriving DecidableEq, Repr

/-- `RawPaymentContext` of src/middleware/requirePayment.ts (the value
stored on the raw request under the payment-context symbol). -/
structure RawPaymentContext where
  paid : Bool
  paidMode : PaidMode
  amount : Option String
  wallet : Option String
  receiver : Option String
  chainId : Option Nat
  idempotencyKey : Option String
deriving DecidableEq, Repr

/-- The fields of `request.requestContext` that the claims mention. -/
structure ReqCtx where
  paid : Bool
  paidMode : PaidMode
  idempotencyKey : Option String
deriving DecidableEq, Repr

/-- An inbound request: URL, client address, the three relevant headers
(absent or a single string value), and the wall-clock time. -/
structure Request where
  url : String
  ip : String
  idemHeader : Option String
  bypassHeader : Option String
  paymentHeader : Option String
  now : Nat
deriving DecidableEq, Repr

/-- The configuration fields the pipeline reads. -/
structure Config where
  devBypassEnabled : Bool
  nodeEnv : String
  rateLimitPerMin : Nat
  rateLimitUnpaidPerMin : Nat
  amount : String
  receiverAddress : String
  chainId : Nat
deriving DecidableEq, Repr

/-- The result of `decodePaymentSignatureHeader` (external library). -/
structure DecodedPayment where
  amount : String
  payTo : String
  payer : Option String
deriving DecidableEq, Repr

/-- What the external x402 facilitator middleware does with a request:
call `next()` or write a response with some status itself. -/
inductive FacOutcome
  | callNext
  | respond (status : Nat)
deriving DecidableEq, Repr

/-- The two external collaborators, as oracles. -/
structure Oracles where
  decodeSig : String → Option DecodedPayment
  facilitator : Request → FacOutcome

/-- The observable response: status, error code of the envelope (if the
body is the service's error envelope), message. -/
structure Response where
  status : Nat
  code : Option ErrCode
  message : Option String
deriving DecidableEq, Repr

/-- The process-wide mutable state: both limiter maps and the ledger. -/
structure SysState where
  globalL : LimiterState
  unpaidL : LimiterState
  store : IdemStore
deriving DecidableEq, Repr

/-- Which pipeline steps ran for a request. -/
structure Trace where
  devBypassReached : Bool
  sigDecodeReached : Bool
  facilitatorReached : Bool
  handlerRan : Bool
deriving DecidableEq, Repr

/-- State, response, final request context and trace of one request. -/
structure Outcome where
  state : SysState
  resp : Response
  ctx : ReqCtx
  trace : Trace
deriving DecidableEq, Repr

/-- Characters before the first `'?'`: `url.split("?")[0]`. -/
def beforeQuery : List Char → List Char
  | [] => []
  | c :: rest => if c = '?' then [] else c :: beforeQuery rest

/-- `(req.url ?? "/").split("?")[0] ?? "/"`. -/
def pathOf (url : String) : String :=
  String.mk (beforeQuery url.data)

/-- `l` starts with `p` (the embedding of `String.startsWith`). -/
def leadsWith : List Char → List Char → Bool
  | _, [] => true
  | [], _ :: _ => false
  | c :: l, p :: ps => decide (c = p) && leadsWith l ps

/-- The monetized prefix `"/v1/"`. -/
def v1Chars : List Char := ['/', 'v', '1', '/']

/-- JavaScript truthiness of an optional string header or context field
(absent or empty is falsy). -/
def keyTruthy : Option String → Bool
  | none => false
  | some s => if s = "" then false else true

/-- The payment-step part of a trace. -/
structure PayTrace where
  devBypassReached : Bool
  sigDecodeReached : Bool
  facilitatorReached : Bool
deriving DecidableEq, Repr

/-- `createRequirePaymentMiddleware` as wired by `buildApp`: the x402
middleware bundle is created exactly when dev bypass is disabled
(`config.x402DevBypass ? undefined : createX402Middleware(config)`).
`Sum.inl raw` means the middleware called `next()` with `raw` the payment
context stored on the raw request; `Sum.inr resp` means it wrote the
response itself.  A 402 written by the facilitator is normalized to the
`PAYMENT_REQUIRED` envelope by `normalize402Json`. -/
def stagePayment (cfg : Config) (orc : Oracles) (req : Request) :
    (Option RawPaymentContext ⊕ Response) × PayTrace :=
  if leadsWith (pathOf req.url).data v1Chars = false then
    (Sum.inl none, ⟨false, false, false⟩)
  else if cfg.devBypassEnabled = true ∧ ¬ cfg.nodeEnv = "production" then
    if req.bypassHeader = some "true" then
      (Sum.inl (some ⟨true, PaidMode.devBypass, some cfg.amount, none,
        some cfg.receiverAddress, some cfg.chainId, req.idemHeader⟩),
        ⟨true, false, false⟩)
    else
      (Sum.inr ⟨402, some ErrCode.PAYMENT_REQUIRED,
        some "Provide x-dev-bypass: true for local bypass"⟩,
        ⟨true, false, false⟩)
  else if cfg.devBypassEnabled = true then
    (Sum.inr ⟨500, some ErrCode.INTERNAL_ERROR, some "Payment middleware unavailable"⟩,
      ⟨false, false, false⟩)
  else
    match req.paymentHeader with
    | some hdr =>
      match orc.decodeSig hdr with
      | some d =>
        (match orc.facilitator req with
         | FacOutcome.callNext => Sum.inl (some ⟨true, PaidMode.x402, some d.amount,
             d.payer, some d.payTo, some cfg.chainId, req.idemHeader⟩)
         | FacOutcome.respond s =>
             Sum.inr ⟨s, if s = 402 then some ErrCode.PAYMENT_REQUIRED else none, none⟩,
         ⟨false, true, true⟩)
      | none =>
        (Sum.inr ⟨402, some ErrCode.PAYMENT_INVALID,
          some "Malformed payment signature header"⟩,
          ⟨false, true, false⟩)
    | none =>
      (match orc.facilitator req with
       | FacOutcome.callNext => Sum.inl none
       | FacOutcome.respond s =>
           Sum.inr ⟨s, if s = 402 then some ErrCode.PAYMENT_REQUIRED else none, none⟩,
       ⟨false, false, true⟩)

/-- `applyRawPaymentContext` of the requestContext preHandler (restricted
to the tracked fields). -/
def applyRaw (ctx : ReqCtx) (raw : Option RawPaymentContext) : ReqCtx :=
  match raw with
  | none => ctx
  | some r => ⟨r.paid, r.paidMode, r.idempotencyKey⟩

/-- The header assignment of the requestContext preHandler: a string
`idempotency-key` header overwrites the context key. -/
def applyHeaderKey (ctx : ReqCtx) (req : Request) : ReqCtx :=
  match req.idemHeader with
  | none => ctx
  | some k => ⟨ctx.paid, ctx.paidMode, some k⟩

/-- The echo handler re-reads the raw payment context (paid fields only;
it does not touch the context's idempotency key). -/
def applyRawHandler (ctx : ReqCtx) (raw : Option RawPaymentContext) : ReqCtx :=
  match raw with
  | none => ctx
  | some r => ⟨r.paid, r.paidMode, ctx.idempotencyKey⟩

/-- The unpaid-attempt middleware: consume the unpaid limiter for every
request whose path has the monetized prefix, before payment is examined. -/
def stageUnpaid (cfg : Config) (st : SysState) (req : Request) : SysState × Bool :=
  if leadsWith (pathOf req.url).data v1Chars = true then
    (⟨st.globalL, (consume st.unpaidL req.ip cfg.rateLimitUnpaidPerMin req.now).1, st.store⟩,
      (consume st.unpaidL req.ip cfg.rateLimitUnpaidPerMin req.now).2)
  else (st, true)

/-- All stages up to and including the handler: request-context entry,
global limiter, unpaid-attempt middleware, payment gate, route matching,
header-schema validation, request-context preHandler, idempotency
preHandler, handler. -/
def admitAndHandle (cfg : Config) (orc : Oracles) (st : SysState) (req : Request) :
    Outcome :=
  let ctx0 : ReqCtx := ⟨false, PaidMode.unset, none⟩
  let g := consume st.globalL req.ip cfg.rateLimitPerMin req.now
  let st1 : SysState := ⟨g.1, st.unpaidL, st.store⟩
  if g.2 = false then
    ⟨st1, ⟨429, some ErrCode.RATE_LIMITED, some "Global rate limit exceeded"⟩, ctx0,
      ⟨false, false, false, false⟩⟩
  else
    let u := stageUnpaid cfg st1 req
    if u.2 = false then
      ⟨u.1, ⟨429, some ErrCode.RATE_LIMITED, some "Unpaid attempt rate limit exceeded"⟩,
        ctx0, ⟨false, false, false, false⟩⟩
    else
      let p := stagePayment cfg orc req
      match p.1 with
      | Sum.inr resp =>
        ⟨u.1, resp, ctx0,
          ⟨p.2.devBypassReached, p.2.sigDecodeReached, p.2.facilitatorReached, false⟩⟩
      | Sum.inl raw =>
        if pathOf req.url = "/v1/echo" then
          if keyTruthy req.idemHeader = false then
            ⟨u.1, ⟨400, some ErrCode.INTERNAL_ERROR, some "Invalid request payload"⟩, ctx0,
              ⟨p.2.devBypassReached, p.2.sigDecodeReached, p.2.facilitatorReached, false⟩⟩
          else
            let ctx1 := applyHeaderKey (applyRaw ctx0 raw) req
            match req.idemHeader with
            | none =>
              ⟨u.1, ⟨400, some ErrCode.IDEMPOTENCY_REQUIRED,
                some "Idempotency-Key header is required"⟩, ctx1,
                ⟨p.2.devBypassReached, p.2.sigDecodeReached, p.2.facilitatorReached, false⟩⟩
            | some k =>
              if k = "" then
                ⟨u.1, ⟨400, some ErrCode.IDEMPOTENCY_REQUIRED,
                  some "Idempotency-Key header is required"⟩, ctx1,
                  ⟨p.2.devBypassReached, p.2.sigDecodeReached, p.2.facilitatorReached, false⟩⟩
              else if storeHas u.1.store k req.now = true then
                ⟨u.1, ⟨409, some ErrCode.IDEMPOTENCY_REPLAY,
                  some "Idempotency key replay detected"⟩, ctx1,
                  ⟨p.2.devBypassReached, p.2.sigDecodeReached, p.2.facilitatorReached, false⟩⟩
              else
                ⟨u.1, ⟨200, none, none⟩, applyRawHandler ctx1 raw,
                  ⟨p.2.devBypassReached, p.2.sigDecodeReached, p.2.facilitatorReached, true⟩⟩
        else if pathOf req.url = "/meta" ∨ pathOf req.url = "/healthz" then
          ⟨u.1, ⟨200, none, none⟩, applyHeaderKey (applyRaw ctx0 raw) req,
            ⟨p.2.devBypassReached, p.2.sigDecodeReached, p.2.facilitatorReached, true⟩⟩
        else
          ⟨u.1, ⟨404, none, none⟩, ctx0,
            ⟨p.2.devBypassReached, p.2.sigDecodeReached, p.2.facilitatorReached, false⟩⟩

/-- The `onResponse` hook of `buildApp` — the single commit point:
a 402 charges the unpaid-attempt limiter; a < 400 status with a paid
context and a truthy idempotency key commits the key; nothing else
mutates either stateful primitive. -/
def finalizeHook (cfg : Config) (st : SysState) (req : Request) (resp : Response)
    (ctx : ReqCtx) : SysState :=
  if leadsWith req.url.data v1Chars = false then st
  else if resp.status = 402 then
    ⟨st.globalL, (consume st.unpaidL req.ip cfg.rateLimitUnpaidPerMin req.now).1, st.store⟩
  else if resp.status < 400 ∧ ctx.paid = true ∧ keyTruthy ctx.idempotencyKey = true then
    match ctx.idempotencyKey with
    | some k => ⟨st.globalL, st.unpaidL, markSeen st.store k req.now⟩
    | none => st
  else st

/-- One full request: admission and handling, then finalization. -/
def processRequest (cfg : Config) (orc : Oracles) (st : SysState) (req : Request) :
    Outcome :=
  let a := admitAndHandle cfg orc st req
  ⟨finalizeHook cfg a.state req a.resp a.ctx, a.resp, a.ctx, a.trace⟩

/-- Test-style configuration with dev bypass enabled (mirrors the repo's
test environment: `NODE_ENV=test`, `X402_DEV_BYPASS=true`, default limits,
price `0.01`). -/
def cfgBypass : Config :=
  ⟨true, "test", 100, 20, "0.01", "0x1111111111111111111111111111111111111111", 8453⟩

/-- Oracles that decode nothing and answer 402 at the facilitator; the
dev-bypass branches never consult them. -/
def orcUnit : Oracles := ⟨fun _ => none, fun _ => FacOutcome.respond 402⟩

/-- Fresh process state: empty limiters, empty default ledger. -/
def st0 : SysState := ⟨[], [], emptyStore⟩

/-- A paid (dev-bypass) monetized request carrying idempotency key "k1". -/
def reqBypassPaid : Request :=
  ⟨"/v1/echo", "198.51.100.7", some "k1", some "true", none, 1000⟩

/-- A monetized request with no idempotency key but a valid bypass header. -/
def reqNoKey : Request :=
  ⟨"/v1/echo", "198.51.100.7", none, some "true", none, 1000⟩

/-- State in which key "k1" was committed at time 500. -/
def stSeen : SysState := ⟨[], [], markSeen emptyStore "k1" 500⟩

/-! ### Theorems -/

theorem lookupKey_mapSet_self (st : LimiterState) (k : String) (v : CounterValue) :
    lookupKey (mapSet st k v) k = some v := by
  induction st with
  | nil => simp [mapSet, lookupKey]
  | cons hd tl ih =>
    obtain ⟨k2, v2⟩ := hd
    by_cases h : k2 = k
    · simp [mapSet, h, lookupKey]
    · simp [mapSet, h, lookupKey, ih]

theorem lookupKey_mapSet_other (st : LimiterState) (k k2 : String) (v : CounterValue)
    (h : k2 ≠ k) : lookupKey (mapSet st k2 v) k = lookupKey st k := by
  induction st with
  | nil => simp [mapSet, lookupKey, h]
  | cons hd tl ih =>
    obtain ⟨k3, v3⟩ := hd
    by_cases h3 : k3 = k2
    · subst h3
      simp [mapSet, lookupKey, h]
    · simp only [mapSet, if_neg h3]
      by_cases h4 : k3 = k
      · simp [lookupKey, h4]
      · simp [lookupKey, h4, ih]

/-- A consume call for a different key never touches the entry for `k`. -/
theorem lookupKey_consume_other (st : LimiterState) (k k2 : String) (L now : Nat)
    (h : k2 ≠ k) : lookupKey (consume st k2 L now).1 k = lookupKey st k := by
  unfold consume
  cases hl : lookupKey st k2 with
  | none => simpa using lookupKey_mapSet_other st k k2 _ h
  | some existing =>
    by_cases hw : existing.windowStart ≠ windowOf now
    · simpa [hw] using lookupKey_mapSet_other st k k2 _ h
    · by_cases hc : L ≤ existing.count
      · simp [hw, hc]
      · simpa [hw, hc] using lookupKey_mapSet_other st k k2 _ h

/-- Claim C8: when a consume call finds a current-window counter already at or
above the limit, it returns `false` and the limiter state is returned
completely unchanged (every key, including `k` itself, keeps its counter). -/
theorem consume_full_window_leaves_state_unchanged
    (st : LimiterState) (k : String) (L now : Nat) (c : CounterValue)
    (h1 : lookupKey st k = some c) (h2 : c.windowStart = windowOf now)
    (h3 : L ≤ c.count) :
    consume st k L now = (st, false) := by
  unfold consume
  rw [h1]
  simp [h2, h3]

/-- Witness for C8 at a concrete limiter state. -/
theorem consume_full_window_leaves_state_unchanged_witness :
    consume [("203.0.113.9", ⟨0, 2⟩), ("other", ⟨0, 1⟩)] "203.0.113.9" 2 59000 =
      ([("203.0.113.9", ⟨0, 2⟩), ("other", ⟨0, 1⟩)], false) :=
  consume_full_window_leaves_state_unchanged _ "203.0.113.9" 2 59000 ⟨0, 2⟩
    (by decide) (by decide) (by decide)

theorem consume_fresh (st : LimiterState) (k : String) (L now : Nat)
    (h : freshFor st k (windowOf now)) :
    consume st k L now = (mapSet st k ⟨windowOf now, 1⟩, true) := by
  unfold consume
  cases hl : lookupKey st k with
  | none => rfl
  | some cv => simp [h cv hl]

theorem consume_current_window (st : LimiterState) (k : String) (L now : Nat)
    (cv : CounterValue) (h1 : lookupKey st k = some cv)
    (h2 : cv.windowStart = windowOf now) :
    consume st k L now =
      if L ≤ cv.count then (st, false)
      else (mapSet st k ⟨cv.windowStart, cv.count + 1⟩, true) := by
  unfold consume
  rw [h1]
  by_cases h3 : L ≤ cv.count
  · simp [h2, h3]
  · simp [h2, h3]

theorem kInvariant_step (k : String) (W L : Nat) (hL : 1 ≤ L)
    (st : LimiterState) (j : Nat) (c : LimCall)
    (hwin : windowOf c.now = W) (hkey : c.key = k) (hlim : c.limit = L)
    (hinv : kInvariant k W L st j) :
    kInvariant k W L (consume st c.key c.limit c.now).1 (j + 1) := by
  rw [hkey, hlim]
  unfold kInvariant at hinv ⊢
  rw [if_neg (by omega : ¬(j + 1 = 0))]
  by_cases hj : j = 0
  · subst hj
    rw [if_pos rfl] at hinv
    rw [consume_fresh st k L c.now (by rw [hwin]; exact hinv)]
    simp [lookupKey_mapSet_self, hwin, Nat.min_eq_left hL]
  · rw [if_neg hj] at hinv
    rw [consume_current_window st k L c.now ⟨W, min j L⟩ hinv
      (show W = windowOf c.now from hwin.symm)]
    by_cases hfull : L ≤ j
    · have h1 : min j L = L := Nat.min_eq_right hfull
      have h2 : min (j + 1) L = L := Nat.min_eq_right (by omega)
      simp [h1, h2, hinv]
    · have h1 : min j L = j := Nat.min_eq_left (by omega)
      have h2 : min (j + 1) L = j + 1 := Nat.min_eq_left (by omega)
      simp [h1, h2, hfull, lookupKey_mapSet_self]

theorem kInvariant_other (k : String) (W L : Nat)
    (st : LimiterState) (j : Nat) (c : LimCall) (hkey : ¬ c.key = k)
    (hinv : kInvariant k W L st j) :
    kInvariant k W L (consume st c.key c.limit c.now).1 j := by
  unfold kInvariant at hinv ⊢
  have hfr := lookupKey_consume_other st k c.key c.limit c.now hkey
  by_cases hj : j = 0
  · subst hj
    simp only [if_pos rfl] at hinv ⊢
    intro cv hcv
    exact hinv cv (hfr ▸ hcv)
  · simp only [if_neg hj] at hinv ⊢
    rw [hfr, hinv]

theorem runCalls_kInvariant (k : String) (W L : Nat) (hL : 1 ≤ L) :
    ∀ (cs : List LimCall) (st : LimiterState) (j : Nat),
      (∀ c ∈ cs, windowOf c.now = W) →
      (∀ c ∈ cs, c.key = k → c.limit = L) →
      kInvariant k W L st j →
      kInvariant k W L (runCalls st cs).1 (j + countK k cs) := by
  intro cs
  induction cs with
  | nil => intro st j _ _ hinv; simpa [runCalls, countK] using hinv
  | cons c cs ih =>
    intro st j hwin hlim hinv
    by_cases hkey : c.key = k
    · have hstep := kInvariant_step k W L hL st j c (hwin c (by simp)) hkey
        (hlim c (by simp) hkey) hinv
      have := ih (consume st c.key c.limit c.now).1 (j + 1)
        (fun d hd => hwin d (by simp [hd])) (fun d hd => hlim d (by simp [hd])) hstep
      have hc : countK k (c :: cs) = countK k cs + 1 := by
        simp [countK, List.filter, hkey]
      rw [hc]
      simpa [runCalls, Nat.add_assoc, Nat.add_comm 1 (countK k cs)] using this
    · have hstep := kInvariant_other k W L st j c hkey hinv
      have := ih (consume st c.key c.limit c.now).1 j
        (fun d hd => hwin d (by simp [hd])) (fun d hd => hlim d (by simp [hd])) hstep
      have hc : countK k (c :: cs) = countK k cs := by
        simp [countK, List.filter, hkey]
      rw [hc]
      simpa [runCalls] using this

/-- Claim C3 (amended: the bound `L` must be at least 1): within a fixed
window `W`, starting from a state for which `W` is fresh for key `k`, after a
sequence of calls containing exactly `L` calls for `k` (each with bound `L`),
the next (that is, the `(L+1)`-th) consume call for `k` in the window returns
`false`; and, independently, the first consume call for a key in a fresh
window always returns `true` and stores a counter with count 1, regardless of
the prior window's state. -/
theorem limiter_window_semantics (k : String) (W L n : Nat) (st : LimiterState)
    (cs : List LimCall) (hL : 1 ≤ L)
    (hW : ∀ c ∈ cs, windowOf c.now = W) (hn : windowOf n = W)
    (hlim : ∀ c ∈ cs, c.key = k → c.limit = L)
    (hfresh : freshFor st k W) (hcount : countK k cs = L) :
    (consume (runCalls st cs).1 k L n).2 = false ∧
    ((consume st k L n).2 = true ∧
      lookupKey (consume st k L n).1 k = some ⟨W, 1⟩) := by
  constructor
  · have hinv := runCalls_kInvariant k W L hL cs st 0 hW hlim
      (by unfold kInvariant; simpa using hfresh)
    rw [hcount] at hinv
    unfold kInvariant at hinv
    rw [if_neg (by omega : ¬(0 + L = 0))] at hinv
    have : min (0 + L) L = L := by omega
    rw [this] at hinv
    unfold consume
    rw [hinv]
    simp [hn]
  · rw [consume_fresh st k L n (hn ▸ hfresh)]
    simp [lookupKey_mapSet_self, hn]

/-- Witness for C3 (amended): bound 1, two calls for `"a"` in window 0; the
second is rejected, and the very first call in the fresh window is admitted
with a stored count of 1. -/
theorem limiter_window_semantics_witness :
    (consume (runCalls [] [⟨"a", 1, 5⟩]).1 "a" 1 30000).2 = false ∧
    ((consume [] "a" 1 30000).2 = true ∧
      lookupKey (consume [] "a" 1 30000).1 "a" = some ⟨0, 1⟩) :=
  limiter_window_semantics "a" 0 1 30000 [] [⟨"a", 1, 5⟩] (by decide)
    (by intro c hc; simp at hc; subst hc; decide) (by decide)
    (by intro c hc; simp at hc; subst hc; intro _; rfl)
    (by intro cv hcv; simp [lookupKey] at hcv) (by decide)

/-- Counterexample to claim C3 as stated: with bound `L = 0` the `(L+1)`-th
(that is, the first) consume call for a key inside a window returns `true`,
not `false` — the reset branch admits the first call of a window regardless
of the bound. -/
theorem limiter_zero_bound_first_call_admitted :
    (consume [] "k" 0 0).2 = true := by decide

/-- Claim C4: committing a key makes it immediately seen; a record older
than the TTL is reported unseen; the ledger is capacity-bounded — a commit
never grows it beyond `maxEntries`, and committing a fresh key to a full
ledger keeps only the `maxEntries - 1` most recently set old records, so the
least-recently-set record is evicted; and the defaults are a TTL of 10
minutes and a capacity of 10,000 records. -/
theorem idempotency_store_contract :
    (∀ (st : IdemStore) (k : String) (t : Nat), 1 ≤ st.maxEntries →
      storeHas (markSeen st k t) k t = true) ∧
    (∀ (st : IdemStore) (k : String) (now : Nat) (e : IdemEntry),
      st.entries.find? (fun x => x.key = k) = some e →
      st.ttlMs < now - e.createdAt → storeHas st k now = false) ∧
    (∀ (st : IdemStore) (k : String) (t : Nat),
      (markSeen st k t).entries.length ≤ st.maxEntries) ∧
    (∀ (st : IdemStore) (k : String) (t : Nat), 1 ≤ st.maxEntries →
      (∀ e ∈ st.entries, e.key ≠ k) → st.entries.length = st.maxEntries →
      (markSeen st k t).entries = ⟨k, t⟩ :: st.entries.take (st.maxEntries - 1)) ∧
    (emptyStore.ttlMs = 600000 ∧ emptyStore.maxEntries = 10000) := by
  refine ⟨?_, ?_, ?_, ?_, by constructor <;> rfl⟩
  · intro st k t hmax
    unfold markSeen storeHas
    cases hm : st.maxEntries with
    | zero => omega
    | succ m => simp [List.take_succ_cons, List.find?, hm, Nat.sub_self]
  · intro st k now e hfind hold
    unfold storeHas
    rw [hfind]
    simp only [decide_eq_false_iff_not]
    omega
  · intro st k t
    unfold markSeen
    exact List.length_take_le st.maxEntries _
  · intro st k t hmax hnew hfull
    unfold markSeen
    have hfilter : st.entries.filter (fun e => ¬ e.key = k) = st.entries := by
      apply List.filter_eq_self.mpr
      intro e he
      simpa using hnew e he
    rw [hfilter]
    cases hm : st.maxEntries with
    | zero => omega
    | succ m => simp [List.take_succ_cons, hm]

/-- Witness for C4 at a concrete two-record store of capacity 2. -/
theorem idempotency_store_contract_witness :
    storeHas (markSeen (⟨1000, 2, []⟩ : IdemStore) "k1" 50) "k1" 50 = true ∧
    storeHas (⟨1000, 2, [⟨"k1", 0⟩]⟩ : IdemStore) "k1" 2000 = false ∧
    (markSeen (⟨1000, 2, [⟨"a", 5⟩, ⟨"b", 3⟩]⟩ : IdemStore) "c" 9).entries =
      [⟨"c", 9⟩, ⟨"a", 5⟩] := by
  refine ⟨idempotency_store_contract.1 _ "k1" 50 (by decide),
    idempotency_store_contract.2.1 _ "k1" 2000 ⟨"k1", 0⟩ (by decide) (by decide),
    ?_⟩
  have h := idempotency_store_contract.2.2.2.1 (⟨1000, 2, [⟨"a", 5⟩, ⟨"b", 3⟩]⟩ : IdemStore)
    "c" 9 (by decide) (by decide) (by decide)
  rw [h]
  rfl

theorem exceptBind_ok {α β ε : Type} (a : α) (f : α → Except ε β) :
    (Except.ok a >>= f) = f a := rfl

theorem exceptBind_error {α β ε : Type} (e : ε) (f : α → Except ε β) :
    ((Except.error e : Except ε α) >>= f) = Except.error e := rfl

theorem exceptPure_bind {α β ε : Type} (a : α) (f : α → Except ε β) :
    ((pure a : Except ε α) >>= f) = f a := rfl

theorem exceptThrow_eq {α ε : Type} (e : ε) :
    (throw e : Except ε α) = Except.error e := rfl

/-- Claim C9: in an environment with `NODE_ENV = "production"` and a bypass
flag that parses to `true`, configuration loading always fails (either at
the `CHAIN_ID` validation or at the dedicated production-bypass guard); the
combination is never accepted. -/
theorem bypass_refused_in_production (env : EnvLike)
    (h1 : env "NODE_ENV" = some "production")
    (h2 : parseBoolEnv env "X402_DEV_BYPASS" false = true) :
    ∃ msg, loadConfig env = Except.error msg := by
  unfold loadConfig
  cases hc : parseIntEnv env "CHAIN_ID" 8453 with
  | error e => exact ⟨e, rfl⟩
  | ok n =>
    by_cases hn : n = 8453
    · subst hn
      refine ⟨"X402_DEV_BYPASS cannot be enabled in production", ?_⟩
      simp [exceptBind_ok, exceptBind_error, exceptPure_bind, exceptThrow_eq, h1, h2]
    · refine ⟨"CHAIN_ID must be 8453, received: " ++ toString n, ?_⟩
      simp [exceptBind_ok, exceptBind_error, exceptPure_bind, exceptThrow_eq, hn]

/-- Witness for C9 at a concrete environment. -/
theorem bypass_refused_in_production_witness :
    ∃ msg,
      loadConfig (fun k =>
        if k = "NODE_ENV" then some "production"
        else if k = "X402_DEV_BYPASS" then some "TRUE" else none) =
        Except.error msg :=
  bypass_refused_in_production _ (by decide) (by decide)

/-! ### Arithmetic of `usdcToBaseUnits` (claim C10) -/
theorem data_mk (l : List Char) : (String.mk l).data = l := rfl

theorem digitsVal_cons_zero (tl : List Char) : digitsVal ('0' :: tl) = digitsVal tl := rfl

theorem foldl_digits (b : List Char) : ∀ acc : Nat,
    b.foldl (fun acc c => acc * 10 + (c.toNat - 48)) acc =
      acc * 10 ^ b.length + digitsVal b := by
  induction b with
  | nil => intro acc; simp [digitsVal]
  | cons c tl ih =>
    intro acc
    have h1 := ih (acc * 10 + (c.toNat - 48))
    simp only [List.foldl_cons]
    rw [h1]
    have h3 : digitsVal (c :: tl) = (c.toNat - 48) * 10 ^ tl.length + digitsVal tl := by
      unfold digitsVal
      simp only [List.foldl_cons]
      have := ih (0 * 10 + (c.toNat - 48))
      simpa using this
    rw [h3]
    simp [List.length_cons, pow_succ]
    ring

theorem digitsVal_append (a b : List Char) :
    digitsVal (a ++ b) = digitsVal a * 10 ^ b.length + digitsVal b := by
  unfold digitsVal
  rw [List.foldl_append]
  exact foldl_digits b _

theorem digitsVal_stripZeros (l : List Char) :
    digitsVal (stripZeros l) = digitsVal l := by
  induction l with
  | nil => rfl
  | cons c tl ih =>
    unfold stripZeros
    by_cases hc : (decide (c = '0') && firstIsDigit tl) = true
    · rw [if_pos hc]
      have h0 : c = '0' := by
        simp only [Bool.and_eq_true, decide_eq_true_eq] at hc
        exact hc.1
      subst h0
      rw [ih, digitsVal_cons_zero]
    · rw [if_neg hc]

theorem stripZeros_ne_nil (l : List Char) (h : ¬ l = []) : ¬ stripZeros l = [] := by
  induction l with
  | nil => exact absurd rfl h
  | cons c tl ih =>
    unfold stripZeros
    by_cases hc : (decide (c = '0') && firstIsDigit tl) = true
    · rw [if_pos hc]
      have : ¬ tl = [] := by
        intro he
        subst he
        simp [firstIsDigit] at hc
      exact ih this
    · rw [if_neg hc]
      simp

theorem stripZeros_all_digits (l : List Char) (h : l.all Char.isDigit = true) :
    (stripZeros l).all Char.isDigit = true := by
  induction l with
  | nil => exact h
  | cons c tl ih =>
    unfold stripZeros
    simp only [List.all_cons, Bool.and_eq_true] at h
    by_cases hc : (decide (c = '0') && firstIsDigit tl) = true
    · rw [if_pos hc]
      exact ih h.2
    · rw [if_neg hc]
      simp [h.1, h.2]

theorem stripZeros_canonical (l : List Char) (h : l.all Char.isDigit = true)
    (hne : ¬ l = []) :
    stripZeros l = ['0'] ∨ ¬ (stripZeros l).head? = some '0' := by
  induction l with
  | nil => exact absurd rfl hne
  | cons c tl ih =>
    unfold stripZeros
    simp only [List.all_cons, Bool.and_eq_true] at h
    by_cases hc : (decide (c = '0') && firstIsDigit tl) = true
    · rw [if_pos hc]
      have htl : ¬ tl = [] := by
        intro he
        subst he
        simp [firstIsDigit] at hc
      exact ih h.2 htl
    · rw [if_neg hc]
      by_cases h0 : c = '0'
      · subst h0
        simp only [Bool.and_eq_true, decide_eq_true_eq, not_and] at hc
        left
        cases htl : tl with
        | nil => rfl
        | cons c2 rest =>
          exfalso
          rw [htl] at h
          simp only [List.all_cons, Bool.and_eq_true] at h
          have : firstIsDigit tl = true := by
            rw [htl]
            simp [firstIsDigit, h.2.1]
          exact hc trivial this
      · right
        simp [h0]

theorem afterDot_none_no_dot (l : List Char) (h : afterDot l = none) :
    ∀ c ∈ l, ¬ c = '.' := by
  induction l with
  | nil => intro c hc; simp at hc
  | cons c tl ih =>
    unfold afterDot at h
    by_cases hc : c = '.'
    · rw [if_pos hc] at h
      exact absurd h (by simp)
    · rw [if_neg hc] at h
      intro d hd
      rcases List.mem_cons.mp hd with h1 | h1
      · subst h1; exact hc
      · exact ih h d h1

theorem beforeDot_no_dot (l : List Char) (h : ∀ c ∈ l, ¬ c = '.') :
    beforeDot l = l := by
  induction l with
  | nil => rfl
  | cons c tl ih =>
    unfold beforeDot
    rw [if_neg (h c (by simp))]
    rw [ih (fun d hd => h d (by simp [hd]))]

theorem afterDot_decomp (l f : List Char) (h : afterDot l = some f) :
    l = beforeDot l ++ '.' :: f := by
  induction l with
  | nil => simp [afterDot] at h
  | cons c tl ih =>
    unfold afterDot at h
    by_cases hc : c = '.'
    · subst hc
      rw [if_pos rfl] at h
      have htf : tl = f := by simpa using h
      subst htf
      unfold beforeDot
      simp
    · rw [if_neg hc] at h
      unfold beforeDot
      rw [if_neg hc]
      conv_lhs => rw [ih h]
      simp

theorem beforeDot_append (w f : List Char) (h : ∀ c ∈ w, ¬ c = '.') :
    beforeDot (w ++ '.' :: f) = w := by
  induction w with
  | nil => simp [beforeDot]
  | cons c tl ih =>
    rw [List.cons_append]
    unfold beforeDot
    rw [if_neg (h c (by simp))]
    rw [ih (fun d hd => h d (by simp [hd]))]

theorem afterDot_append (w f : List Char) (h : ∀ c ∈ w, ¬ c = '.') :
    afterDot (w ++ '.' :: f) = some f := by
  induction w with
  | nil => simp [afterDot]
  | cons c tl ih =>
    rw [List.cons_append]
    unfold afterDot
    rw [if_neg (h c (by simp))]
    exact ih (fun d hd => h d (by simp [hd]))

theorem digit_ne_dot (c : Char) (h : c.isDigit = true) : ¬ c = '.' := by
  intro he
  subst he
  simp [Char.isDigit] at h

theorem all_digits_no_dot (l : List Char) (h : l.all Char.isDigit = true) :
    ∀ c ∈ l, ¬ c = '.' := by
  intro c hc
  refine digit_ne_dot c ?_
  rw [List.all_eq_true] at h
  exact h c hc

theorem stripZeros_append_dot (f : List Char) :
    ∀ w : List Char, ¬ w = [] → w.all Char.isDigit = true →
      stripZeros (w ++ '.' :: f) = stripZeros w ++ '.' :: f := by
  intro w
  induction w with
  | nil => intro h; exact absurd rfl h
  | cons c tl ih =>
    intro _ hall
    simp only [List.all_cons, Bool.and_eq_true] at hall
    cases tl with
    | nil =>
      rw [List.cons_append, List.nil_append]
      unfold stripZeros
      simp [firstIsDigit]
    | cons c2 rest =>
      simp only [List.cons_append]
      unfold stripZeros
      have h2 : firstIsDigit (c2 :: (rest ++ '.' :: f)) = firstIsDigit (c2 :: rest) := rfl
      rw [h2]
      by_cases hc : (decide (c = '0') && firstIsDigit (c2 :: rest)) = true
      · rw [if_pos hc, if_pos hc]
        have hmain := ih (by simp) hall.2
        rw [List.cons_append] at hmain
        exact hmain
      · rw [if_neg hc, if_neg hc]
        simp

/-- The shape test survives leading-zero stripping, and the scaled value is
unchanged by it. -/
theorem stripZeros_shape_scaled (l : List Char) (h : priceShape l = true) :
    priceShape (stripZeros l) = true ∧ scaledValue (stripZeros l) = scaledValue l := by
  unfold priceShape at h
  simp only [Bool.and_eq_true, Bool.not_eq_true'] at h
  obtain ⟨⟨hne, hdig⟩, hfrac⟩ := h
  have hwne : ¬ beforeDot l = [] := by
    intro he
    rw [he] at hne
    simp at hne
  cases hdot : afterDot l with
  | none =>
    have hnodot := afterDot_none_no_dot l hdot
    have hbefore : beforeDot l = l := beforeDot_no_dot l hnodot
    have hlne : ¬ l = [] := by
      rw [← hbefore]
      exact hwne
    have hldig : l.all Char.isDigit = true := by
      rw [← hbefore]
      exact hdig
    have hs_all : (stripZeros l).all Char.isDigit = true := stripZeros_all_digits l hldig
    have hs_ne : ¬ stripZeros l = [] := stripZeros_ne_nil l hlne
    have hs_nodot : ∀ c ∈ stripZeros l, ¬ c = '.' := all_digits_no_dot _ hs_all
    have hs_before : beforeDot (stripZeros l) = stripZeros l := beforeDot_no_dot _ hs_nodot
    have hs_after : afterDot (stripZeros l) = none := by
      cases hsa : afterDot (stripZeros l) with
      | none => rfl
      | some g =>
        exfalso
        have hd := afterDot_decomp _ _ hsa
        have hdotmem : '.' ∈ stripZeros l := by
          rw [hd]
          simp
        exact hs_nodot '.' hdotmem rfl
    constructor
    · unfold priceShape
      rw [hs_before, hs_after]
      simp [hs_all, List.isEmpty_iff, hs_ne]
    · unfold scaledValue
      rw [hs_before, hs_after, hbefore, hdot, digitsVal_stripZeros]
  | some f =>
    have hdecomp := afterDot_decomp l f hdot
    have hwd : (beforeDot l).all Char.isDigit = true := hdig
    have hwnodot : ∀ c ∈ beforeDot l, ¬ c = '.' := all_digits_no_dot _ hwd
    have hf2 : f.isEmpty = false ∧ f.all Char.isDigit = true := by
      rw [hdot] at hfrac
      simp only [Bool.and_eq_true, Bool.not_eq_true'] at hfrac
      exact hfrac
    have hstrip : stripZeros l = stripZeros (beforeDot l) ++ '.' :: f := by
      conv_lhs => rw [hdecomp]
      exact stripZeros_append_dot f (beforeDot l) hwne hwd
    have hsw_all : (stripZeros (beforeDot l)).all Char.isDigit = true :=
      stripZeros_all_digits _ hwd
    have hsw_ne : ¬ stripZeros (beforeDot l) = [] := stripZeros_ne_nil _ hwne
    have hsw_nodot : ∀ c ∈ stripZeros (beforeDot l), ¬ c = '.' := all_digits_no_dot _ hsw_all
    have hs_before : beforeDot (stripZeros l) = stripZeros (beforeDot l) := by
      rw [hstrip]
      exact beforeDot_append _ _ hsw_nodot
    have hs_after : afterDot (stripZeros l) = some f := by
      rw [hstrip]
      exact afterDot_append _ _ hsw_nodot
    constructor
    · unfold priceShape
      rw [hs_before, hs_after]
      simp [hsw_all, List.isEmpty_iff, hsw_ne, hf2.1, hf2.2]
    · unfold scaledValue
      rw [hs_before, hs_after, hdot, digitsVal_stripZeros]

/-- Exact characterization of `usdcToBaseUnits` on a shape-checked string:
the output is a digit string, its value is the input value scaled by `10^6`
with fractional digits beyond the sixth truncated, and it has no leading
zero (unless it is exactly `"0"`). -/
theorem usdcToBaseUnits_spec (v : String) (hshape : priceShape v.data = true) :
    (usdcToBaseUnits v).data.all Char.isDigit = true ∧
    digitsVal (usdcToBaseUnits v).data = scaledValue v.data ∧
    ((usdcToBaseUnits v).data = ['0'] ∨ ¬ (usdcToBaseUnits v).data.head? = some '0') := by
  unfold priceShape at hshape
  simp only [Bool.and_eq_true, Bool.not_eq_true'] at hshape
  obtain ⟨⟨hne, hdig⟩, hfrac⟩ := hshape
  have hwne : ¬ beforeDot v.data = [] := by
    intro he
    rw [he] at hne
    simp at hne
  cases hdot : afterDot v.data with
  | none =>
    have hnodot := afterDot_none_no_dot _ hdot
    have hbefore : beforeDot v.data = v.data := beforeDot_no_dot _ hnodot
    have hvd : v.data.all Char.isDigit = true := by rw [← hbefore]; exact hdig
    have hvne : ¬ v.data = [] := by rw [← hbefore]; exact hwne
    have e3 : (((none : Option (List Char)).getD []) ++ List.replicate 6 '0').take 6 =
        List.replicate 6 '0' := by decide
    have hraw : rawUnits v.data = stripZeros (v.data ++ List.replicate 6 '0') := by
      unfold rawUnits
      rw [hdot, hbefore, e3]
      rw [if_neg (by simpa [List.isEmpty_iff] using hvne)]
    have hall6 : (v.data ++ List.replicate 6 '0').all Char.isDigit = true := by
      simp only [List.all_append, Bool.and_eq_true]
      exact ⟨hvd, by decide⟩
    have happne : ¬ (v.data ++ List.replicate 6 '0') = [] := by simp [hvne]
    have hrawne : ¬ rawUnits v.data = [] := by
      rw [hraw]
      exact stripZeros_ne_nil _ happne
    have hdata2 : (usdcToBaseUnits v).data = stripZeros (v.data ++ List.replicate 6 '0') := by
      show finalUnits v.data = _
      unfold finalUnits
      rw [if_neg (by simpa [List.isEmpty_iff] using hrawne)]
      exact hraw
    refine ⟨?_, ?_, ?_⟩
    · rw [hdata2]
      exact stripZeros_all_digits _ hall6
    · rw [hdata2, digitsVal_stripZeros, digitsVal_append]
      unfold scaledValue
      rw [hdot, hbefore, e3]
      have e1 : (List.replicate 6 '0').length = 6 := by decide
      have e2 : digitsVal (List.replicate 6 '0') = 0 := by decide
      rw [e1, e2]
      norm_num
    · rw [hdata2]
      exact stripZeros_canonical _ hall6 happne
  | some f =>
    have hf2 : f.isEmpty = false ∧ f.all Char.isDigit = true := by
      rw [hdot] at hfrac
      simp only [Bool.and_eq_true, Bool.not_eq_true'] at hfrac
      exact hfrac
    have hfr_all : ((f ++ List.replicate 6 '0').take 6).all Char.isDigit = true := by
      rw [List.all_eq_true]
      intro c hc
      have hmem : c ∈ f ++ List.replicate 6 '0' := List.take_subset _ _ hc
      rcases List.mem_append.mp hmem with h1 | h1
      · rw [List.all_eq_true] at hf2
        exact hf2.2 c h1
      · have hc0 : c = '0' := List.eq_of_mem_replicate h1
        subst hc0
        decide
    have hfr_len : ((f ++ List.replicate 6 '0').take 6).length = 6 := by
      simp [List.length_take]
    have hraw : rawUnits v.data =
        stripZeros (beforeDot v.data ++ (f ++ List.replicate 6 '0').take 6) := by
      unfold rawUnits
      rw [hdot]
      rw [if_neg (by simpa [List.isEmpty_iff] using hwne)]
      rfl
    have hall : (beforeDot v.data ++ (f ++ List.replicate 6 '0').take 6).all
        Char.isDigit = true := by
      simp only [List.all_append, Bool.and_eq_true]
      exact ⟨hdig, hfr_all⟩
    have happne : ¬ (beforeDot v.data ++ (f ++ List.replicate 6 '0').take 6) = [] := by
      simp [hwne]
    have hrawne : ¬ rawUnits v.data = [] := by
      rw [hraw]
      exact stripZeros_ne_nil _ happne
    have hdata2 : (usdcToBaseUnits v).data =
        stripZeros (beforeDot v.data ++ (f ++ List.replicate 6 '0').take 6) := by
      show finalUnits v.data = _
      unfold finalUnits
      rw [if_neg (by simpa [List.isEmpty_iff] using hrawne)]
      exact hraw
    refine ⟨?_, ?_, ?_⟩
    · rw [hdata2]
      exact stripZeros_all_digits _ hall
    · rw [hdata2, digitsVal_stripZeros, digitsVal_append, hfr_len]
      unfold scaledValue
      rw [hdot]
      simp only [Option.getD_some]
      norm_num
    · rw [hdata2]
      exact stripZeros_canonical _ hall happne

/-- Invariants of a successful `normalizeUsdcPrice`. -/
theorem normalize_ok (s t : String) (h : normalizeUsdcPrice s = Except.ok t) :
    priceShape s.data = true ∧ t.data = stripZeros s.data := by
  by_cases h1 : priceShape s.data = true
  · refine ⟨h1, ?_⟩
    have hne : ¬ s.data = [] := by
      intro he
      unfold priceShape at h1
      rw [he] at h1
      simp [beforeDot] at h1
    have hsne : ¬ stripZeros s.data = [] := stripZeros_ne_nil _ hne
    unfold normalizeUsdcPrice at h
    rw [if_neg (by rw [h1]; decide)] at h
    by_cases h2 : hasNonzeroDigit (trimmedPrice s).data = true
    · rw [if_neg (by rw [h2]; decide)] at h
      simp only [Except.ok.injEq] at h
      rw [← h]
      unfold trimmedPrice
      rw [if_neg (by simpa [List.isEmpty_iff] using hsne)]
    · rw [Bool.not_eq_true] at h2
      rw [if_pos (by rw [h2]; decide)] at h
      exact Except.noConfusion h
  · rw [Bool.not_eq_true] at h1
    unfold normalizeUsdcPrice at h
    rw [if_pos (by rw [h1]; decide)] at h
    exact Except.noConfusion h

/-- Claim C10: for every `PRICE_USDC` value accepted by configuration
loading, `usdcToBaseUnits` of the normalized price is the decimal value of
the input multiplied by `10^6` with fractional digits beyond the sixth
truncated (not rounded), rendered as a base-10 digit string with no leading
zero. -/
theorem price_base_units_correct (s t : String)
    (h : normalizeUsdcPrice s = Except.ok t) :
    (usdcToBaseUnits t).data.all Char.isDigit = true ∧
    digitsVal (usdcToBaseUnits t).data = scaledValue s.data ∧
    ((usdcToBaseUnits t).data = ['0'] ∨ ¬ (usdcToBaseUnits t).data.head? = some '0') := by
  obtain ⟨hshape, hdata⟩ := normalize_ok s t h
  obtain ⟨hshape2, hscaled⟩ := stripZeros_shape_scaled s.data hshape
  have hspec := usdcToBaseUnits_spec t (by rw [hdata]; exact hshape2)
  refine ⟨hspec.1, ?_, hspec.2.2⟩
  rw [hspec.2.1, hdata, hscaled]

/-- Witness for C10: the documented example, `"0.01"` yields `"10000"`. -/
theorem price_base_units_correct_witness :
    normalizeUsdcPrice "0.01" = Except.ok "0.01" ∧
    digitsVal (usdcToBaseUnits "0.01").data = scaledValue "0.01".data ∧
    usdcToBaseUnits "0.01" = "10000" :=
  ⟨by rfl, (price_base_units_correct "0.01" "0.01" (by rfl)).2.1, by rfl⟩

theorem admitAndHandle_store (cfg : Config) (orc : Oracles) (st : SysState)
    (req : Request) : (admitAndHandle cfg orc st req).state.store = st.store := by
  unfold admitAndHandle stageUnpaid
  dsimp only
  repeat' split
  all_goals rfl

theorem finalizeHook_no_commit (cfg : Config) (st : SysState) (req : Request)
    (resp : Response) (ctx : ReqCtx)
    (h : ¬ (resp.status < 400 ∧ ctx.paid = true ∧ keyTruthy ctx.idempotencyKey = true)) :
    (finalizeHook cfg st req resp ctx).store = st.store := by
  unfold finalizeHook
  repeat' split
  all_goals try rfl
  all_goals exact absurd (by assumption) h

theorem finalizeHook_commit (cfg : Config) (st : SysState) (req : Request)
    (resp : Response) (ctx : ReqCtx) (k : String)
    (hurl : leadsWith req.url.data v1Chars = true) (hs : resp.status < 400)
    (hp : ctx.paid = true) (hk : ctx.idempotencyKey = some k) (hkne : ¬ k = "") :
    (finalizeHook cfg st req resp ctx).store = markSeen st.store k req.now := by
  unfold finalizeHook
  rw [if_neg (by simp [hurl])]
  rw [if_neg (by omega)]
  rw [if_pos ⟨hs, hp, by rw [hk]; simp [keyTruthy, hkne]⟩]
  rw [hk]

theorem finalizeHook_unpaidL_not402 (cfg : Config) (st : SysState) (req : Request)
    (resp : Response) (ctx : ReqCtx) (h : ¬ resp.status = 402) :
    (finalizeHook cfg st req resp ctx).unpaidL = st.unpaidL := by
  unfold finalizeHook
  repeat' split
  all_goals try rfl
  all_goals exact absurd (by assumption) h

theorem finalizeHook_unpaidL_402 (cfg : Config) (st : SysState) (req : Request)
    (resp : Response) (ctx : ReqCtx)
    (hurl : leadsWith req.url.data v1Chars = true) (h : resp.status = 402) :
    (finalizeHook cfg st req resp ctx).unpaidL =
      (consume st.unpaidL req.ip cfg.rateLimitUnpaidPerMin req.now).1 := by
  unfold finalizeHook
  rw [if_neg (by simp [hurl]), if_pos h]

theorem admitAndHandle_nokey (cfg : Config) (orc : Oracles) (st : SysState)
    (req : Request) (hurl : pathOf req.url = "/v1/echo")
    (hkey : keyTruthy req.idemHeader = false) :
    (admitAndHandle cfg orc st req).trace.handlerRan = false ∧
    keyTruthy (admitAndHandle cfg orc st req).ctx.idempotencyKey = false := by
  unfold admitAndHandle
  dsimp only
  repeat' split
  all_goals first
    | exact ⟨rfl, rfl⟩
    | exact absurd hkey (by assumption)
    | exact absurd hurl (by assumption)

/-- Claim C1: the idempotency ledger is written only at finalization — no
stage up to and including the handler changes it — and the finalization
hook writes it exactly for a monetized request whose final status is below
400 with `paid = true` and a truthy idempotency key in the context; a
request missing any of the three conditions leaves the ledger unchanged. -/
theorem ledger_written_only_on_paid_success (cfg : Config) (orc : Oracles)
    (st : SysState) (req : Request) :
    (admitAndHandle cfg orc st req).state.store = st.store ∧
    (∀ (resp : Response) (ctx : ReqCtx),
      ¬ (resp.status < 400 ∧ ctx.paid = true ∧ keyTruthy ctx.idempotencyKey = true) →
      (finalizeHook cfg st req resp ctx).store = st.store) ∧
    (∀ (resp : Response) (ctx : ReqCtx) (k : String),
      leadsWith req.url.data v1Chars = true → resp.status < 400 → ctx.paid = true →
      ctx.idempotencyKey = some k → ¬ k = "" →
      (finalizeHook cfg st req resp ctx).store = markSeen st.store k req.now) := by
  refine ⟨admitAndHandle_store cfg orc st req, ?_, ?_⟩
  · intro resp ctx h
    exact finalizeHook_no_commit cfg st req resp ctx h
  · intro resp ctx k hurl hs hp hk hkne
    exact finalizeHook_commit cfg st req resp ctx k hurl hs hp hk hkne

/-- Witness for C1: on concrete runs, a 402 finalization and the whole
admission phase leave the ledger unchanged, and a paid 200 with key "k1"
commits exactly "k1". -/
theorem ledger_written_only_on_paid_success_witness :
    (admitAndHandle cfgBypass orcUnit st0 reqBypassPaid).state.store = st0.store ∧
    (finalizeHook cfgBypass st0 reqBypassPaid
      ⟨402, some ErrCode.PAYMENT_REQUIRED, none⟩ ⟨false, PaidMode.unset, none⟩).store =
      st0.store ∧
    (finalizeHook cfgBypass st0 reqBypassPaid ⟨200, none, none⟩
      ⟨true, PaidMode.devBypass, some "k1"⟩).store = markSeen st0.store "k1" 1000 :=
  ⟨(ledger_written_only_on_paid_success cfgBypass orcUnit st0 reqBypassPaid).1,
    (ledger_written_only_on_paid_success cfgBypass orcUnit st0 reqBypassPaid).2.1
      _ _ (by decide),
    (ledger_written_only_on_paid_success cfgBypass orcUnit st0 reqBypassPaid).2.2
      _ _ "k1" (by decide) (by decide) (by decide) (by decide) (by decide)⟩

/-- Counterexample to claim C5: a request with `paid = true` (dev bypass,
status 200) on the monetized path still consumes the unpaid-attempt
limiter — the unpaid-attempt middleware charges every `/v1/` request at
admission, before payment status is known. -/
theorem unpaid_limiter_charged_for_paid_request :
    (processRequest cfgBypass orcUnit st0 reqBypassPaid).ctx.paid = true ∧
    (processRequest cfgBypass orcUnit st0 reqBypassPaid).resp.status = 200 ∧
    ¬ (processRequest cfgBypass orcUnit st0 reqBypassPaid).state.unpaidL = st0.unpaidL := by
  refine ⟨by decide, by decide, by decide⟩

/-- Claim C5 (amended): the unpaid-attempt limiter is consumed at admission
by the unpaid-attempt middleware for every monetized-path request,
regardless of payment; the finalization hook consumes it a second time only
when the final status is 402, so a paid (non-402) request is never charged
at finalization. -/
theorem unpaid_limiter_charge_points (cfg : Config) (st : SysState) (req : Request) :
    (∀ (resp : Response) (ctx : ReqCtx), ¬ resp.status = 402 →
      (finalizeHook cfg st req resp ctx).unpaidL = st.unpaidL) ∧
    (∀ (resp : Response) (ctx : ReqCtx),
      leadsWith req.url.data v1Chars = true → resp.status = 402 →
      (finalizeHook cfg st req resp ctx).unpaidL =
        (consume st.unpaidL req.ip cfg.rateLimitUnpaidPerMin req.now).1) ∧
    (leadsWith (pathOf req.url).data v1Chars = true →
      stageUnpaid cfg st req =
        (⟨st.globalL, (consume st.unpaidL req.ip cfg.rateLimitUnpaidPerMin req.now).1,
          st.store⟩,
         (consume st.unpaidL req.ip cfg.rateLimitUnpaidPerMin req.now).2)) := by
  refine ⟨?_, ?_, ?_⟩
  · intro resp ctx h
    exact finalizeHook_unpaidL_not402 cfg st req resp ctx h
  · intro resp ctx hurl h
    exact finalizeHook_unpaidL_402 cfg st req resp ctx hurl h
  · intro hv
    unfold stageUnpaid
    rw [if_pos hv]

/-- Witness for C5 (amended) at concrete inputs. -/
theorem unpaid_limiter_charge_points_witness :
    (finalizeHook cfgBypass st0 reqBypassPaid ⟨200, none, none⟩
      ⟨true, PaidMode.devBypass, some "k1"⟩).unpaidL = st0.unpaidL ∧
    (finalizeHook cfgBypass st0 reqBypassPaid
      ⟨402, some ErrCode.PAYMENT_REQUIRED, none⟩ ⟨false, PaidMode.unset, none⟩).unpaidL =
      (consume st0.unpaidL reqBypassPaid.ip cfgBypass.rateLimitUnpaidPerMin
        reqBypassPaid.now).1 ∧
    stageUnpaid cfgBypass st0 reqBypassPaid =
      (⟨st0.globalL, (consume st0.unpaidL reqBypassPaid.ip
        cfgBypass.rateLimitUnpaidPerMin reqBypassPaid.now).1, st0.store⟩,
       (consume st0.unpaidL reqBypassPaid.ip cfgBypass.rateLimitUnpaidPerMin
        reqBypassPaid.now).2) :=
  ⟨(unpaid_limiter_charge_points cfgBypass st0 reqBypassPaid).1 _ _ (by decide),
    (unpaid_limiter_charge_points cfgBypass st0 reqBypassPaid).2.1 _ _
      (by decide) (by decide),
    (unpaid_limiter_charge_points cfgBypass st0 reqBypassPaid).2.2 (by decide)⟩

/-- Counterexample to claim C6: a monetized-route request with no
idempotency key reaches the payment gate — the dev-bypass branch runs (and,
with the bypass signal present, admits the request); the missing key is only
rejected afterwards, by the header-schema validation, with a 400. -/
theorem payment_gate_reached_without_key :
    reqNoKey.idemHeader = none ∧
    (processRequest cfgBypass orcUnit st0 reqNoKey).trace.devBypassReached = true ∧
    (processRequest cfgBypass orcUnit st0 reqNoKey).resp.status = 400 := by
  refine ⟨rfl, by decide, by decide⟩

/-- Claim C6 (amended): a monetized-route request without a truthy
idempotency key never reaches the handler and never commits anything to the
idempotency ledger — the rejection happens after the payment gate (which
runs first), not before it. -/
theorem no_key_never_reaches_handler (cfg : Config) (orc : Oracles)
    (st : SysState) (req : Request) (hurl : req.url = "/v1/echo")
    (hkey : keyTruthy req.idemHeader = false) :
    (processRequest cfg orc st req).trace.handlerRan = false ∧
    (processRequest cfg orc st req).state.store = st.store := by
  have hpath : pathOf req.url = "/v1/echo" := by rw [hurl]; decide
  have h := admitAndHandle_nokey cfg orc st req hpath hkey
  constructor
  · exact h.1
  · show (finalizeHook cfg (admitAndHandle cfg orc st req).state req
      (admitAndHandle cfg orc st req).resp (admitAndHandle cfg orc st req).ctx).store =
      st.store
    rw [finalizeHook_no_commit _ _ _ _ _ (by
      intro hcond
      rw [hcond.2.2] at h
      exact Bool.noConfusion h.2)]
    exact admitAndHandle_store cfg orc st req

/-- Witness for C6 (amended) at a concrete request. -/
theorem no_key_never_reaches_handler_witness :
    (processRequest cfgBypass orcUnit st0 reqNoKey).trace.handlerRan = false ∧
    (processRequest cfgBypass orcUnit st0 reqNoKey).state.store = st0.store :=
  no_key_never_reaches_handler cfgBypass orcUnit st0 reqNoKey rfl (by decide)

/-- Claim C7: with bypass mode enabled outside production, on the monetized
path, a request whose bypass header equals "true" is admitted by the gate
with a synthesized context (`paid = true`, `paidMode = dev_bypass`), with
the same deterministic value for every oracle (the facilitator is never
consulted: `facilitatorReached = false`); a request without that signal is
rejected 402 `PAYMENT_REQUIRED`, the message naming the bypass header. -/
theorem dev_bypass_gate (cfg : Config) (orc : Oracles) (req : Request)
    (hb : cfg.devBypassEnabled = true) (hp : ¬ cfg.nodeEnv = "production")
    (hv : leadsWith (pathOf req.url).data v1Chars = true) :
    (req.bypassHeader = some "true" →
      stagePayment cfg orc req =
        (Sum.inl (some ⟨true, PaidMode.devBypass, some cfg.amount, none,
          some cfg.receiverAddress, some cfg.chainId, req.idemHeader⟩),
         ⟨true, false, false⟩)) ∧
    (¬ req.bypassHeader = some "true" →
      stagePayment cfg orc req =
        (Sum.inr ⟨402, some ErrCode.PAYMENT_REQUIRED,
          some "Provide x-dev-bypass: true for local bypass"⟩,
         ⟨true, false, false⟩)) := by
  constructor
  · intro hsig
    unfold stagePayment
    rw [if_neg (by simp [hv]), if_pos ⟨hb, hp⟩, if_pos hsig]
  · intro hsig
    unfold stagePayment
    rw [if_neg (by simp [hv]), if_pos ⟨hb, hp⟩, if_neg hsig]

/-- Witness for C7 at concrete requests (with and without the signal). -/
theorem dev_bypass_gate_witness :
    stagePayment cfgBypass orcUnit reqBypassPaid =
      (Sum.inl (some ⟨true, PaidMode.devBypass, some "0.01", none,
        some "0x1111111111111111111111111111111111111111", some 8453, some "k1"⟩),
       ⟨true, false, false⟩) ∧
    stagePayment cfgBypass orcUnit ⟨"/v1/echo", "198.51.100.7", some "k1", none, none, 1000⟩ =
      (Sum.inr ⟨402, some ErrCode.PAYMENT_REQUIRED,
        some "Provide x-dev-bypass: true for local bypass"⟩,
       ⟨true, false, false⟩) :=
  ⟨(dev_bypass_gate cfgBypass orcUnit reqBypassPaid (by decide) (by decide)
      (by decide)).1 (by decide),
    (dev_bypass_gate cfgBypass orcUnit _ (by decide) (by decide) (by decide)).2
      (by decide)⟩

/-- Claim C2 evaluated on the pipeline (the failing half and the holding
half): a monetized-route request that carries valid (bypass) payment but no
`Idempotency-Key` header is rejected by the route's header schema with HTTP
400 and error code `INTERNAL_ERROR` ("Invalid request payload", the generic
validation-error mapping of the error handler) — not `IDEMPOTENCY_REQUIRED`
as the claim and the README state; the replay half does hold: a request
whose key is already committed is rejected 409 `IDEMPOTENCY_REPLAY` without
running the handler. -/
theorem missing_key_rejected_as_validation_error :
    ((processRequest cfgBypass orcUnit st0 reqNoKey).resp.status = 400 ∧
      (processRequest cfgBypass orcUnit st0 reqNoKey).resp.code =
        some ErrCode.INTERNAL_ERROR ∧
      ¬ (processRequest cfgBypass orcUnit st0 reqNoKey).resp.code =
        some ErrCode.IDEMPOTENCY_REQUIRED) ∧
    ((processRequest cfgBypass orcUnit stSeen reqBypassPaid).resp.status = 409 ∧
      (processRequest cfgBypass orcUnit stSeen reqBypassPaid).resp.code =
        some ErrCode.IDEMPOTENCY_REPLAY ∧
      (processRequest cfgBypass orcUnit stSeen reqBypassPaid).trace.handlerRan = false) := by
  refine ⟨⟨by decide, by decide, by decide⟩, ⟨by decide, by decide, by decide⟩⟩

end X402
